import Mathlib

/-
Verification of the emotion routing and playback subsystem of the Jarvis
repository: a shallow embedding of `Jarvis/videos/emotion_router.py`
(`EmotionRouter`) and `Jarvis/videos/nestor_player.py` (`EmotionPlayer`),
together with theorems about the classifier's threshold, cooldown, scoring,
tie-breaking and frame behaviour, and about the player's trigger /
media-finished state machine.

Strings are modelled as lists of characters.  Python floats (weights, scores,
timestamps) are modelled as rationals.  The wall clock (`time.time()`) is an
explicit `now` parameter.  Unicode lower-casing and NFD accent stripping are
modelled on the ASCII plus Latin-1 French repertoire that the configuration
uses (identity elsewhere).  Python exceptions are modelled with `Except`.
-/

abbrev Str := List Char

/-- Coerce a Lean string literal to the character-list model. -/
def str (s : String) : Str := s.data

/-- Whitespace as recognised by Python `str.split()` with no separator
(space, tab, newline, carriage return, vertical tab, form feed). -/
def pyIsSpace (c : Char) : Bool :=
  c = ' ' || c = '\t' || c = '\n' || c = '\r' || c = '\x0b' || c = '\x0c'

/-- Worker for `pySplit`; `acc` holds the characters of the current token in
reverse order. -/
def pySplitAux : Str → Str → List Str
  | [], acc => if acc.isEmpty then [] else [acc.reverse]
  | c :: rest, acc =>
    if pyIsSpace c then
      if acc.isEmpty then pySplitAux rest [] else acc.reverse :: pySplitAux rest []
    else pySplitAux rest (c :: acc)

/-- Python `s.split()` with no argument: split on runs of whitespace and
drop empty tokens. -/
def pySplit (s : Str) : List Str := pySplitAux s []

/-- Does `needle` occur at the start of `hay`? -/
def startsWith : Str → Str → Bool
  | [], _ => true
  | _ :: _, [] => false
  | a :: n, b :: h => a = b && startsWith n h

/-- Python substring test `needle in hay` on strings. -/
def strContains (needle : Str) : Str → Bool
  | [] => needle.isEmpty
  | c :: t => startsWith needle (c :: t) || strContains needle t

/-- Python `str.lower()` restricted to the ASCII and Latin-1 French
repertoire the configurations use (identity on other characters). -/
def pyLowerChar (c : Char) : Char :=
  match c with
  | 'À' => 'à' | 'Â' => 'â' | 'Ä' => 'ä' | 'Ç' => 'ç' | 'È' => 'è' | 'É' => 'é'
  | 'Ê' => 'ê' | 'Ë' => 'ë' | 'Î' => 'î' | 'Ï' => 'ï' | 'Ô' => 'ô' | 'Ö' => 'ö'
  | 'Ù' => 'ù' | 'Û' => 'û' | 'Ü' => 'ü'
  | _ => c.toLower

/-- NFD decomposition followed by removal of combining marks (category Mn),
per character, restricted to the Latin-1 French repertoire (identity
elsewhere). -/
def stripAccentsChar (c : Char) : Str :=
  match c with
  | 'à' | 'â' | 'ä' => ['a']
  | 'ç' => ['c']
  | 'è' | 'é' | 'ê' | 'ë' => ['e']
  | 'î' | 'ï' => ['i']
  | 'ô' | 'ö' => ['o']
  | 'ù' | 'û' | 'ü' => ['u']
  | _ => [c]

/-- `strip_accents` from `emotion_router.py`: drop the combining marks of the
NFD normal form. -/
def strip_accents (s : Str) : Str :=
  s.foldr (fun c acc => stripAccentsChar c ++ acc) []

/-- The normalisation `strip_accents(text.lower())` used by
`EmotionRouter.analyze`. -/
def normStr (s : Str) : Str := strip_accents (s.map pyLowerChar)

/-- One entry of the `routing.emotions` configuration block: weighted
keywords, weighted phrases and a priority (`int(data.get("priority", 0))`,
default already applied at load). -/
structure EmotionRouting where
  keywords : List (Str × ℚ)
  phrases : List (Str × ℚ)
  priority : Int

/-- The configuration read by `EmotionRouter.__init__`: the strategy block
and the emotions block, the latter as an association list in declaration
order (Python dicts preserve insertion order). -/
structure RouterCfg where
  min_score : ℚ
  tie_breaker : Str
  fallback : Str
  cooldown : ℚ
  routing : List (Str × EmotionRouting)

/-- The mutable classifier state: `self.last_trigger_ts`. -/
structure RouterState where
  last_trigger_ts : ℚ
deriving DecidableEq

/-- First-match association-list lookup, the model of Python dict access. -/
def lookup? {α : Type} : List (Str × α) → Str → Option α
  | [], _ => none
  | (k, v) :: rest, key => if k = key then some v else lookup? rest key

/-- `self.priority.get(emo, 0)`. -/
def priorityOf (cfg : RouterCfg) (emo : Str) : Int :=
  match lookup? cfg.routing emo with
  | some d => d.priority
  | none => 0

/-- `self.priority.get(best_emo, 0)` where `best_emo` may still be `None`. -/
def priorityOpt (cfg : RouterCfg) : Option Str → Int
  | none => 0
  | some e => priorityOf cfg e

/-- The per-emotion score of `EmotionRouter.analyze`: the sum of the weights
of the keywords whose normal form is a whole token of the normalised text
`t`, plus the sum of the weights of the phrases whose normal form is a
substring of `t`. -/
def emoScore (t : Str) (d : EmotionRouting) : ℚ :=
  (d.keywords.map (fun p => if normStr p.1 ∈ pySplit t then p.2 else 0)).sum +
    (d.phrases.map (fun p => if strContains (normStr p.1) t = true then p.2 else 0)).sum

/-- The score table built by `EmotionRouter.analyze`, in configuration
declaration order. -/
def routerScores (cfg : RouterCfg) (t : Str) : List (Str × ℚ) :=
  cfg.routing.map (fun p => (p.1, emoScore t p.2))

/-- The loop of `EmotionRouter._pick_best`, carrying `best_emo` (initially
`None`) and `best_score` (initially `-1.0`). -/
def pickBestAux (cfg : RouterCfg) : List (Str × ℚ) → Option Str → ℚ → Option Str × ℚ
  | [], best, bestScore => (best, bestScore)
  | (emo, s) :: rest, best, bestScore =>
    if bestScore < s then pickBestAux cfg rest (some emo) s
    else if s = bestScore ∧ 0 < s then
      if cfg.tie_breaker = str "priority" then
        if priorityOpt cfg best < priorityOf cfg emo then pickBestAux cfg rest (some emo) s
        else pickBestAux cfg rest best bestScore
      else pickBestAux cfg rest best bestScore
    else pickBestAux cfg rest best bestScore

/-- `EmotionRouter._pick_best`: run the loop, then `best_emo or
self.fallback` (Python truthiness: both `None` and the empty string fall back). -/
def pickBest (cfg : RouterCfg) (scores : List (Str × ℚ)) : Str × ℚ :=
  let r := pickBestAux cfg scores none (-1)
  (match r.1 with
   | none => cfg.fallback
   | some e => if e = [] then cfg.fallback else e,
   r.2)

/-- `EmotionRouter.analyze`: cooldown gate, normalisation, scoring,
selection, threshold.  Returns the `(emotion, score)` pair and the router
state after the call. -/
def analyze (cfg : RouterCfg) (st : RouterState) (now : ℚ) (text : Str) :
    (Str × ℚ) × RouterState :=
  if now - st.last_trigger_ts < cfg.cooldown then ((cfg.fallback, 0), st)
  else
    let t := normStr text
    let best := pickBest cfg (routerScores cfg t)
    if cfg.min_score ≤ best.2 then (best, ⟨now⟩)
    else ((cfg.fallback, 0), st)

/-- `self.idle_name` in `EmotionPlayer.__init__`. -/
def idleName : Str := str "idle"

/-- One entry of `EmotionPlayer.media_map` as built by
`_resolve_media_paths`: resolved file path, loop flag, description. -/
structure MediaInfo where
  file : Str
  loop : Bool
  description : Str
deriving DecidableEq

/-- The player state the claims are about: the immutable media map and the
mutable `self.current_mode`. -/
structure PlayerState where
  media_map : List (Str × MediaInfo)
  current_mode : Str
deriving DecidableEq

/-- Observable side effects of the player: the missing-file warning of
`_play_media`, the handoff to the VLC player, and the unknown-emotion log
line of `trigger_emotion`. -/
inductive PlayerEff where
  | warnMissing (name file : Str)
  | play (file : Str) (loop : Bool)
  | logUnknown (name : Str)
deriving DecidableEq

/-- `EmotionPlayer._play_media`: look the name up in the media map (a
`KeyError`, modelled as `Except.error`, if absent), warn when the file does
not exist on disk (`fsExists` models `os.path.exists`), then hand the media
to the player.  `current_mode` is not touched. -/
def playMedia (fsExists : Str → Bool) (st : PlayerState) (name : Str) (loop : Bool) :
    Except Unit (PlayerState × List PlayerEff) :=
  match lookup? st.media_map name with
  | none => .error ()
  | some info =>
    let warn := if fsExists info.file then [] else [PlayerEff.warnMissing name info.file]
    .ok (st, warn ++ [PlayerEff.play info.file loop])

/-- `EmotionPlayer._play_idle`: set `current_mode` to idle, read the idle
entry of the media map (a `KeyError` if absent — reachable states always
have one), then play it with the loop flag forced to `True`. -/
def playIdle (fsExists : Str → Bool) (st : PlayerState) :
    Except Unit (PlayerState × List PlayerEff) :=
  let st1 : PlayerState := { st with current_mode := idleName }
  match lookup? st1.media_map idleName with
  | none => .error ()
  | some _ => playMedia fsExists st1 idleName true

/-- `EmotionPlayer._on_media_end`: whether or not the current mode is idle,
return to the idle loop (the two branches of the source both call
`_play_idle`). -/
def onMediaEnd (fsExists : Str → Bool) (st : PlayerState) :
    Except Unit (PlayerState × List PlayerEff) :=
  if st.current_mode ≠ idleName then playIdle fsExists st
  else playIdle fsExists st

/-- `EmotionPlayer.trigger_emotion`: unknown names are logged and ignored;
the idle name restarts the idle loop; any other known name sets
`current_mode` and plays the clip once. -/
def trigger_emotion (fsExists : Str → Bool) (st : PlayerState) (name : Str) :
    Except Unit (PlayerState × List PlayerEff) :=
  match lookup? st.media_map name with
  | none => .ok (st, [PlayerEff.logUnknown name])
  | some _ =>
    if name = idleName then playIdle fsExists st
    else
      let st1 : PlayerState := { st with current_mode := name }
      playMedia fsExists st1 name false

/-- `n` consecutive `MediaPlayerEndReached` callbacks, effects concatenated. -/
def onMediaEndN (fsExists : Str → Bool) : Nat → PlayerState → Except Unit (PlayerState × List PlayerEff)
  | 0, st => .ok (st, [])
  | n + 1, st =>
    match onMediaEnd fsExists st with
    | .error e => .error e
    | .ok (st1, effs1) =>
      match onMediaEndN fsExists n st1 with
      | .error e => .error e
      | .ok (st2, effs2) => .ok (st2, effs1 ++ effs2)

/-- `n` consecutive `trigger_emotion` calls with the same name, effects
concatenated. -/
def triggerN (fsExists : Str → Bool) (name : Str) : Nat → PlayerState → Except Unit (PlayerState × List PlayerEff)
  | 0, st => .ok (st, [])
  | n + 1, st =>
    match trigger_emotion fsExists st name with
    | .error e => .error e
    | .ok (st1, effs1) =>
      match triggerN fsExists name n st1 with
      | .error e => .error e
      | .ok (st2, effs2) => .ok (st2, effs1 ++ effs2)

/-- The fresh router state built by `EmotionRouter.__init__`
(`last_trigger_ts = 0.0`). -/
def st0 : RouterState := ⟨0⟩

/-- The configuration of the spec's worked scenario: emotion `tristesse`
with keyword `triste` (weight 1.0) and phrase `mon chat est mort`
(weight 3.0), `min_score_to_trigger = 1.0`. -/
def cfgTristesse : RouterCfg :=
  { min_score := 1
    tie_breaker := str "priority"
    fallback := str "idle"
    cooldown := 2
    routing := [(str "tristesse",
      { keywords := [(str "triste", 1)]
        phrases := [(str "mon chat est mort", 3)]
        priority := 0 })] }

/-- A configuration whose emotion `tristesse` has the same word both as a
keyword (weight 1.0) and as a phrase (weight 2.0), to separate token
matching from substring matching. -/
def cfgPunct : RouterCfg :=
  { min_score := 1
    tie_breaker := str "priority"
    fallback := str "idle"
    cooldown := 2
    routing := [(str "tristesse",
      { keywords := [(str "triste", 1)]
        phrases := [(str "triste", 2)]
        priority := 0 })] }

/-- A one-emotion configuration (`joie`, keyword `super`, weight 1.0) used
for the cooldown scenarios. -/
def cfgJoie : RouterCfg :=
  { min_score := 1
    tie_breaker := str "priority"
    fallback := str "idle"
    cooldown := 2
    routing := [(str "joie",
      { keywords := [(str "super", 1)]
        phrases := []
        priority := 0 })] }

/-- A two-emotion configuration with distinct priorities (`colere` at 1,
`joie` at 3) used for the tie-break scenarios. -/
def cfgTie : RouterCfg :=
  { min_score := 1
    tie_breaker := str "priority"
    fallback := str "idle"
    cooldown := 2
    routing := [(str "colere", { keywords := [], phrases := [], priority := 1 }),
                (str "joie", { keywords := [], phrases := [], priority := 3 })] }

/-- A file system on which every configured path exists. -/
def fsAll : Str → Bool := fun _ => true

/-- A two-entry media map (idle plus `joie`), as `_resolve_media_paths`
would build from a minimal valid configuration. -/
def mediaDemo : List (Str × MediaInfo) :=
  [(str "idle", { file := str "/videos/idle.mp4", loop := true, description := str "" }),
   (str "joie", { file := str "/videos/joie.mp4", loop := false, description := str "" })]

/-- C1: for every configuration and input text, `analyze` returns a pair
whose score is at least `min_score_to_trigger`, or else returns the
configured fallback with score `0.0`; it never returns a non-fallback
emotion whose score is below the threshold. -/
theorem analyze_threshold_or_fallback (cfg : RouterCfg) (st : RouterState) (now : ℚ) (text : Str) :
    cfg.min_score ≤ (analyze cfg st now text).1.2 ∨
      ((analyze cfg st now text).1.1 = cfg.fallback ∧ (analyze cfg st now text).1.2 = 0) := by
  simp only [analyze]
  split
  · exact Or.inr ⟨rfl, rfl⟩
  · split
    · next h => exact Or.inl h
    · exact Or.inr ⟨rfl, rfl⟩

/-- C5: `analyze` either leaves the router state exactly as it was (the
cooldown-gated return and the below-threshold return), or sets
`last_trigger_ts` to the call time, and the latter happens only when the
returned score is at or above `min_score_to_trigger`. -/
theorem analyze_state_frame (cfg : RouterCfg) (st : RouterState) (now : ℚ) (text : Str) :
    (analyze cfg st now text).2 = st ∨
      ((analyze cfg st now text).2 = ⟨now⟩ ∧
        cfg.min_score ≤ (analyze cfg st now text).1.2) := by
  simp only [analyze]
  split
  · exact Or.inl rfl
  · split
    · next h => exact Or.inr ⟨rfl, h⟩
    · exact Or.inl rfl

/-- C6: triggering a name that is not in the media map only logs the
unknown name: the call succeeds (no exception) and the player state —
`current_mode` and the media map — is returned unchanged. -/
theorem trigger_unknown_noop (fsExists : Str → Bool) (st : PlayerState) (name : Str)
    (h : lookup? st.media_map name = none) :
    trigger_emotion fsExists st name = .ok (st, [PlayerEff.logUnknown name]) := by
  unfold trigger_emotion
  rw [h]

/-- Witness for C6 at a concrete state and name. -/
theorem trigger_unknown_noop_witness :
    lookup? (PlayerState.mk mediaDemo idleName).media_map (str "fureur") = none ∧
      trigger_emotion fsAll ⟨mediaDemo, idleName⟩ (str "fureur") =
        .ok (⟨mediaDemo, idleName⟩, [PlayerEff.logUnknown (str "fureur")]) :=
  ⟨by decide, trigger_unknown_noop fsAll ⟨mediaDemo, idleName⟩ (str "fureur") (by decide)⟩

theorem playIdle_ok (fsExists : Str → Bool) (st : PlayerState) (m : MediaInfo)
    (h : lookup? st.media_map idleName = some m) :
    ∃ effs, playIdle fsExists st = .ok (⟨st.media_map, idleName⟩, effs) := by
  refine ⟨(if fsExists m.file then [] else [PlayerEff.warnMissing idleName m.file]) ++
    [PlayerEff.play m.file true], ?_⟩
  simp only [playIdle, playMedia, h]

theorem onMediaEnd_ok (fsExists : Str → Bool) (st : PlayerState) (m : MediaInfo)
    (h : lookup? st.media_map idleName = some m) :
    ∃ effs, onMediaEnd fsExists st = .ok (⟨st.media_map, idleName⟩, effs) := by
  unfold onMediaEnd
  rw [ite_self]
  exact playIdle_ok fsExists st m h

theorem onMediaEndN_ok (fsExists : Str → Bool) (m : MediaInfo) :
    ∀ (n : Nat) (st : PlayerState), lookup? st.media_map idleName = some m →
      ∃ st' effs, onMediaEndN fsExists n st = .ok (st', effs) ∧
        st'.media_map = st.media_map ∧ (1 ≤ n → st'.current_mode = idleName) := by
  intro n
  induction n with
  | zero => exact fun st _ => ⟨st, [], rfl, rfl, fun h => absurd h (by simp)⟩
  | succ k ih =>
    intro st h
    obtain ⟨effs1, h1⟩ := onMediaEnd_ok fsExists st m h
    obtain ⟨st2, effs2, h2, hmap, hmode⟩ := ih ⟨st.media_map, idleName⟩ h
    refine ⟨st2, effs1 ++ effs2, ?_, hmap, fun _ => ?_⟩
    · simp only [onMediaEndN, h1, h2]
    · rcases Nat.eq_zero_or_pos k with hk | hk
      · subst hk
        obtain ⟨rfl, rfl⟩ : st2 = ⟨st.media_map, idleName⟩ ∧ effs2 = [] := by
          simpa only [onMediaEndN, Except.ok.injEq, Prod.mk.injEq, and_comm] using h2.symm
        rfl
      · exact hmode hk

/-- C3: from any player state whose media map has an idle entry, after
`trigger(x)` for a non-idle `x` present in the media map, any positive
number of media-finished events (including spurious ones arriving while
already idle) succeeds and leaves `current_mode` equal to idle. -/
theorem trigger_then_media_end_idle (fsExists : Str → Bool) (st : PlayerState)
    (x : Str) (n : Nat) (m d : MediaInfo)
    (hidle : lookup? st.media_map idleName = some m)
    (hx : lookup? st.media_map x = some d)
    (hxne : x ≠ idleName) (hn : 1 ≤ n) :
    ∃ st1 effs1 st2 effs2,
      trigger_emotion fsExists st x = .ok (st1, effs1) ∧
      onMediaEndN fsExists n st1 = .ok (st2, effs2) ∧
      st2.current_mode = idleName := by
  have h1 : trigger_emotion fsExists st x =
      .ok (⟨st.media_map, x⟩,
        (if fsExists d.file then [] else [PlayerEff.warnMissing x d.file]) ++
          [PlayerEff.play d.file false]) := by
    unfold trigger_emotion
    rw [hx]
    simp only [if_neg hxne, playMedia, hx]
  obtain ⟨st2, effs2, h2, _, hmode⟩ :=
    onMediaEndN_ok fsExists m n ⟨st.media_map, x⟩ hidle
  exact ⟨_, _, st2, effs2, h1, h2, hmode hn⟩

/-- Witness for C3 at a concrete state, emotion and event count. -/
theorem trigger_then_media_end_idle_witness :
    lookup? (PlayerState.mk mediaDemo idleName).media_map idleName =
        some { file := str "/videos/idle.mp4", loop := true, description := str "" } ∧
      lookup? (PlayerState.mk mediaDemo idleName).media_map (str "joie") =
        some { file := str "/videos/joie.mp4", loop := false, description := str "" } ∧
      str "joie" ≠ idleName ∧ 1 ≤ 2 ∧
      ∃ st1 effs1 st2 effs2,
        trigger_emotion fsAll ⟨mediaDemo, idleName⟩ (str "joie") = .ok (st1, effs1) ∧
        onMediaEndN fsAll 2 st1 = .ok (st2, effs2) ∧
        st2.current_mode = idleName :=
  ⟨by decide, by decide, by decide, by decide,
    trigger_then_media_end_idle fsAll ⟨mediaDemo, idleName⟩ (str "joie") 2
      { file := str "/videos/idle.mp4", loop := true, description := str "" }
      { file := str "/videos/joie.mp4", loop := false, description := str "" }
      (by decide) (by decide) (by decide) (by decide)⟩

theorem trigger_idle_ok (fsExists : Str → Bool) (st : PlayerState) (m : MediaInfo)
    (h : lookup? st.media_map idleName = some m) :
    ∃ effs, trigger_emotion fsExists st idleName = .ok (⟨st.media_map, idleName⟩, effs) := by
  have h1 := playIdle_ok fsExists st m h
  unfold trigger_emotion
  rw [h]
  simpa only [if_pos rfl] using h1

theorem triggerIdleN_ok (fsExists : Str → Bool) (m : MediaInfo) :
    ∀ (n : Nat) (st : PlayerState), lookup? st.media_map idleName = some m →
      ∃ st' effs, triggerN fsExists idleName n st = .ok (st', effs) ∧
        st'.media_map = st.media_map ∧ (1 ≤ n → st'.current_mode = idleName) := by
  intro n
  induction n with
  | zero => exact fun st _ => ⟨st, [], rfl, rfl, fun h => absurd h (by simp)⟩
  | succ k ih =>
    intro st h
    obtain ⟨effs1, h1⟩ := trigger_idle_ok fsExists st m h
    obtain ⟨st2, effs2, h2, hmap, hmode⟩ := ih ⟨st.media_map, idleName⟩ h
    refine ⟨st2, effs1 ++ effs2, ?_, hmap, fun _ => ?_⟩
    · simp only [triggerN, h1, h2]
    · rcases Nat.eq_zero_or_pos k with hk | hk
      · subst hk
        simp only [triggerN, Except.ok.injEq, Prod.mk.injEq] at h2
        rw [← h2.1]
      · exact hmode hk

/-- C7: `trigger(idle)` is idempotent.  From any player state whose media
map has an idle entry, `n ≥ 1` consecutive `trigger(idle)` calls all
succeed (no exception reaches the caller) and leave `current_mode` equal to
idle, including when the player is already idle. -/
theorem trigger_idle_idempotent (fsExists : Str → Bool) (st : PlayerState)
    (m : MediaInfo) (n : Nat)
    (hidle : lookup? st.media_map idleName = some m) (hn : 1 ≤ n) :
    ∃ st' effs, triggerN fsExists idleName n st = .ok (st', effs) ∧
      st'.current_mode = idleName := by
  obtain ⟨st', effs, h, _, hmode⟩ := triggerIdleN_ok fsExists m n st hidle
  exact ⟨st', effs, h, hmode hn⟩

/-- Witness for C7 at a concrete state (already idle) and three calls. -/
theorem trigger_idle_idempotent_witness :
    lookup? (PlayerState.mk mediaDemo idleName).media_map idleName =
        some { file := str "/videos/idle.mp4", loop := true, description := str "" } ∧
      1 ≤ 3 ∧
      ∃ st' effs, triggerN fsAll idleName 3 ⟨mediaDemo, idleName⟩ = .ok (st', effs) ∧
        st'.current_mode = idleName :=
  ⟨by decide, by decide,
    trigger_idle_idempotent fsAll ⟨mediaDemo, idleName⟩
      { file := str "/videos/idle.mp4", loop := true, description := str "" } 3
      (by decide) (by decide)⟩

/-- C8: with emotion `tristesse` carrying keyword `triste` (weight 1.0) and
phrase `mon chat est mort` (weight 3.0) and a threshold of 1.0, classifying
`mon chat est mort` outside any cooldown window returns `(tristesse, 3.0)`,
and classifying `tout va bien` returns the fallback (here `idle`) with
score `0.0`. -/
theorem analyze_sample_scenario :
    analyze cfgTristesse st0 100 (str "mon chat est mort") = ((str "tristesse", 3), ⟨100⟩) ∧
      analyze cfgTristesse st0 100 (str "tout va bien") = ((cfgTristesse.fallback, 0), st0) ∧
      cfgTristesse.fallback = str "idle" := by
  refine ⟨?_, ?_, rfl⟩ <;>
    simp +decide [analyze, routerScores, emoScore, pickBest, pickBestAux, normStr, strip_accents,
      stripAccentsChar, pyLowerChar, pySplit, pySplitAux, pyIsSpace, strContains, startsWith,
      lookup?, priorityOf, priorityOpt, str, cfgTristesse, st0]

/-- Counterexample to C2 as stated: the cooldown gate measures from the last
successful trigger, not from the last call.  Here the first call (at time
100) scores below threshold and does not trigger, so a second call only
half a second later (`201/2`) still scores and returns `(joie, 1.0)`, not
`(fallback, 0.0)`. -/
theorem analyze_cooldown_counterexample :
    analyze cfgJoie st0 100 (str "bonjour") = ((cfgJoie.fallback, 0), st0) ∧
      (201/2 : ℚ) - 100 < cfgJoie.cooldown ∧
      (analyze cfgJoie st0 (201/2) (str "super")).1 = (str "joie", 1) ∧
      (str "joie", (1 : ℚ)) ≠ (cfgJoie.fallback, 0) := by
  refine ⟨?_, by norm_num [cfgJoie], ?_, by decide⟩
  · simp +decide [analyze, routerScores, emoScore, pickBest, pickBestAux, normStr, strip_accents,
      stripAccentsChar, pyLowerChar, pySplit, pySplitAux, pyIsSpace, strContains, startsWith,
      lookup?, priorityOf, priorityOpt, str, cfgJoie, st0]
  · simp +decide [analyze, routerScores, emoScore, pickBest, pickBestAux, normStr, strip_accents,
      stripAccentsChar, pyLowerChar, pySplit, pySplitAux, pyIsSpace, strContains, startsWith,
      lookup?, priorityOf, priorityOpt, str, cfgJoie, st0]
    norm_num

/-- C2 as amended: if the first call successfully triggered — it set
`last_trigger_ts` to its call time `t1` — then a second call less than
`cooldown_seconds` later returns `(fallback, 0.0)` and leaves the state
unchanged, regardless of either input text. -/
theorem analyze_cooldown_after_trigger (cfg : RouterCfg) (stA st1 : RouterState)
    (r1 : Str × ℚ) (t1 t2 : ℚ) (text1 text2 : Str)
    (_h1 : analyze cfg stA t1 text1 = (r1, st1))
    (htrig : st1.last_trigger_ts = t1)
    (hcd : t2 - t1 < cfg.cooldown) :
    analyze cfg st1 t2 text2 = ((cfg.fallback, 0), st1) := by
  unfold analyze
  rw [htrig, if_pos hcd]

/-- Witness for the amended C2 at a concrete triggering first call. -/
theorem analyze_cooldown_after_trigger_witness :
    analyze cfgJoie st0 100 (str "super") = ((str "joie", 1), ⟨100⟩) ∧
      (⟨100⟩ : RouterState).last_trigger_ts = 100 ∧
      (101 : ℚ) - 100 < cfgJoie.cooldown ∧
      analyze cfgJoie ⟨100⟩ 101 (str "bonjour") = ((cfgJoie.fallback, 0), ⟨100⟩) := by
  have h1 : analyze cfgJoie st0 100 (str "super") = ((str "joie", 1), ⟨100⟩) := by
    simp +decide [analyze, routerScores, emoScore, pickBest, pickBestAux, normStr, strip_accents,
      stripAccentsChar, pyLowerChar, pySplit, pySplitAux, pyIsSpace, strContains, startsWith,
      lookup?, priorityOf, priorityOpt, str, cfgJoie, st0]
  have hcd : (101 : ℚ) - 100 < cfgJoie.cooldown := by norm_num [cfgJoie]
  exact ⟨h1, rfl, hcd,
    analyze_cooldown_after_trigger cfgJoie st0 ⟨100⟩ (str "joie", 1) 100 101
      (str "super") (str "bonjour") h1 rfl hcd⟩

theorem pySplitAux_tokens : ∀ (rest acc : Str), (∀ c ∈ acc, pyIsSpace c = false) →
    ∀ tok ∈ pySplitAux rest acc, tok ≠ [] ∧ ∀ c ∈ tok, pyIsSpace c = false := by
  intro rest
  induction rest with
  | nil =>
    intro acc hacc tok htok
    simp only [pySplitAux] at htok
    split at htok
    · exact absurd htok (List.not_mem_nil _)
    · next hne =>
      rw [List.mem_singleton] at htok
      subst htok
      refine ⟨?_, fun c hc => hacc c (List.mem_reverse.mp hc)⟩
      simp only [ne_eq, List.reverse_eq_nil_iff]
      intro h
      rw [h] at hne
      exact hne rfl
  | cons c rest ih =>
    intro acc hacc tok htok
    simp only [pySplitAux] at htok
    cases hb : pyIsSpace c with
    | true =>
      rw [if_pos hb] at htok
      split at htok
      · exact ih [] (by simp) tok htok
      · next hne =>
        rcases List.mem_cons.mp htok with h | h
        · subst h
          refine ⟨?_, fun c' hc' => hacc c' (List.mem_reverse.mp hc')⟩
          simp only [ne_eq, List.reverse_eq_nil_iff]
          intro h'
          rw [h'] at hne
          exact hne rfl
        · exact ih [] (by simp) tok h
    | false =>
      rw [if_neg (by simp [hb])] at htok
      refine ih (c :: acc) ?_ tok htok
      intro c' hc'
      rcases List.mem_cons.mp hc' with h | h
      · rw [h]; exact hb
      · exact hacc c' h

theorem pySplitAux_word : ∀ (s acc : Str), (∀ c ∈ s, pyIsSpace c = false) →
    acc ≠ [] ∨ s ≠ [] → pySplitAux s acc = [acc.reverse ++ s] := by
  intro s
  induction s with
  | nil =>
    intro acc _ hne
    rcases hne with h | h
    · simp only [pySplitAux]
      rw [if_neg (by simp [h])]
      simp
    · exact absurd rfl h
  | cons c t ih =>
    intro acc hs _
    have hc : pyIsSpace c = false := hs c (List.mem_cons_self _ _)
    simp only [pySplitAux]
    rw [if_neg (by simp [hc])]
    rw [ih (c :: acc) (fun d hd => hs d (List.mem_cons_of_mem _ hd)) (Or.inl (by simp))]
    simp [List.reverse_cons, List.append_assoc]

/-- C10: keyword matching splits the normalised text on whitespace only.
Tokens are non-empty and contain no whitespace; a whitespace-free text is
its own single token, so a keyword matches exactly the whole
whitespace-delimited words.  Concretely, the keyword `triste` contributes
nothing on `je suis triste!` (its token is `triste!`) while the phrase
`triste` still matches as a contiguous substring, and on `je suis triste`
both keyword and phrase match. -/
theorem keyword_token_matching :
    (∀ s : Str, ∀ tok ∈ pySplit s, tok ≠ [] ∧ ∀ c ∈ tok, pyIsSpace c = false) ∧
      (∀ s : Str, (∀ c ∈ s, pyIsSpace c = false) → s ≠ [] → pySplit s = [s]) ∧
      analyze cfgPunct st0 100 (str "je suis triste!") = ((str "tristesse", 2), ⟨100⟩) ∧
      analyze cfgPunct st0 100 (str "je suis triste") = ((str "tristesse", 3), ⟨100⟩) := by
  refine ⟨fun s => pySplitAux_tokens s [] (by simp), fun s hs hne => ?_, ?_, ?_⟩
  · unfold pySplit
    rw [pySplitAux_word s [] hs (Or.inr hne)]
    simp
  · simp +decide [analyze, routerScores, emoScore, pickBest, pickBestAux, normStr, strip_accents,
      stripAccentsChar, pyLowerChar, pySplit, pySplitAux, pyIsSpace, strContains, startsWith,
      lookup?, priorityOf, priorityOpt, str, cfgPunct, st0]
  · simp +decide [analyze, routerScores, emoScore, pickBest, pickBestAux, normStr, strip_accents,
      stripAccentsChar, pyLowerChar, pySplit, pySplitAux, pyIsSpace, strContains, startsWith,
      lookup?, priorityOf, priorityOpt, str, cfgPunct, st0]
    norm_num
    decide

/-- Witness for C10's universally quantified parts at concrete strings. -/
theorem keyword_token_matching_witness :
    (str "ab" ≠ [] ∧ ∀ c ∈ str "ab", pyIsSpace c = false) ∧
      pySplit (str "abc") = [str "abc"] :=
  ⟨keyword_token_matching.1 (str " ab  cd ") (str "ab") (by decide),
    keyword_token_matching.2.1 (str "abc") (by decide) (by decide)⟩

theorem pickBestAux_append_keep (cfg : RouterCfg) :
    ∀ (l rest : List (Str × ℚ)) (b : Option Str) (bs : ℚ),
      (∀ p ∈ l, p.2 < bs) →
      pickBestAux cfg (l ++ rest) b bs = pickBestAux cfg rest b bs := by
  intro l
  induction l with
  | nil => intro rest b bs _; rfl
  | cons hd tl ih =>
    intro rest b bs h
    obtain ⟨e, s⟩ := hd
    have hlt : s < bs := h (e, s) (List.mem_cons_self _ _)
    simp only [List.cons_append, pickBestAux]
    rw [if_neg (not_lt.mpr hlt.le), if_neg (fun hc => absurd hc.1 (ne_of_lt hlt))]
    exact ih rest b bs (fun p hp => h p (List.mem_cons_of_mem _ hp))

theorem pickBestAux_keep (cfg : RouterCfg) (l : List (Str × ℚ)) (b : Option Str) (bs : ℚ)
    (h : ∀ p ∈ l, p.2 < bs) : pickBestAux cfg l b bs = (b, bs) := by
  have h2 := pickBestAux_append_keep cfg l [] b bs h
  rw [List.append_nil] at h2
  exact h2

theorem pickBestAux_keepEq (cfg : RouterCfg) :
    ∀ (l : List (Str × ℚ)) (e : Str) (s : ℚ),
      (∀ p ∈ l, p ≠ (e, s) → p.2 < s) →
      pickBestAux cfg l (some e) s = (some e, s) := by
  intro l
  induction l with
  | nil => intro e s _; rfl
  | cons hd tl ih =>
    intro e s h
    obtain ⟨e', s'⟩ := hd
    have htl : ∀ p ∈ tl, p ≠ (e, s) → p.2 < s :=
      fun p hp' => h p (List.mem_cons_of_mem _ hp')
    by_cases hp : (e', s') = (e, s)
    · rw [Prod.mk.injEq] at hp
      rw [hp.1, hp.2]
      simp only [pickBestAux]
      rw [if_neg (lt_irrefl s)]
      by_cases h0 : 0 < s
      · simp only [true_and]
        rw [if_pos h0]
        have hpr : ¬ priorityOpt cfg (some e) < priorityOf cfg e := by
          simp [priorityOpt]
        by_cases htb : cfg.tie_breaker = str "priority"
        · rw [if_pos htb, if_neg hpr]
          exact ih e s htl
        · rw [if_neg htb]
          exact ih e s htl
      · rw [if_neg (fun hc => h0 hc.2)]
        exact ih e s htl
    · have hlt : s' < s := h (e', s') (List.mem_cons_self _ _) hp
      simp only [pickBestAux]
      rw [if_neg (not_lt.mpr hlt.le), if_neg (fun hc => absurd hc.1 (ne_of_lt hlt))]
      exact ih e s htl

theorem pickBestAux_max (cfg : RouterCfg) :
    ∀ (l : List (Str × ℚ)) (b : Option Str) (bs : ℚ) (e : Str) (s : ℚ),
      (e, s) ∈ l → (∀ p ∈ l, p ≠ (e, s) → p.2 < s) → bs < s →
      pickBestAux cfg l b bs = (some e, s) := by
  intro l
  induction l with
  | nil => intro b bs e s hmem _ _; exact absurd hmem (List.not_mem_nil _)
  | cons hd tl ih =>
    intro b bs e s hmem h hbs
    obtain ⟨e', s'⟩ := hd
    have htl : ∀ p ∈ tl, p ≠ (e, s) → p.2 < s :=
      fun p hp' => h p (List.mem_cons_of_mem _ hp')
    by_cases hp : (e', s') = (e, s)
    · rw [Prod.mk.injEq] at hp
      rw [hp.1, hp.2]
      simp only [pickBestAux]
      rw [if_pos hbs]
      exact pickBestAux_keepEq cfg tl e s htl
    · have hmem' : (e, s) ∈ tl := by
        rcases List.mem_cons.mp hmem with h' | h'
        · exact absurd h'.symm hp
        · exact h'
      have hlt : s' < s := h (e', s') (List.mem_cons_self _ _) hp
      simp only [pickBestAux]
      by_cases h1 : bs < s'
      · rw [if_pos h1]
        exact ih (some e') s' e s hmem' htl hlt
      · rw [if_neg h1]
        by_cases h2 : s' = bs ∧ 0 < s'
        · rw [if_pos h2]
          by_cases h3 : cfg.tie_breaker = str "priority"
          · rw [if_pos h3]
            by_cases h4 : priorityOpt cfg b < priorityOf cfg e'
            · rw [if_pos h4]
              exact ih (some e') s' e s hmem' htl hlt
            · rw [if_neg h4]
              exact ih b bs e s hmem' htl hbs
          · rw [if_neg h3]
            exact ih b bs e s hmem' htl hbs
        · rw [if_neg h2]
          exact ih b bs e s hmem' htl hbs

theorem pickBestAux_append_bound (cfg : RouterCfg) :
    ∀ (l rest : List (Str × ℚ)) (b : Option Str) (bs s : ℚ),
      (∀ p ∈ l, p.2 < s) → bs < s →
      ∃ b' bs', pickBestAux cfg (l ++ rest) b bs = pickBestAux cfg rest b' bs' ∧ bs' < s := by
  intro l
  induction l with
  | nil => intro rest b bs s _ hbs; exact ⟨b, bs, rfl, hbs⟩
  | cons hd tl ih =>
    intro rest b bs s h hbs
    obtain ⟨e', s'⟩ := hd
    have hlt : s' < s := h (e', s') (List.mem_cons_self _ _)
    have htl : ∀ p ∈ tl, p.2 < s := fun p hp => h p (List.mem_cons_of_mem _ hp)
    simp only [List.cons_append, pickBestAux]
    by_cases h1 : bs < s'
    · rw [if_pos h1]; exact ih rest (some e') s' s htl hlt
    · rw [if_neg h1]
      by_cases h2 : s' = bs ∧ 0 < s'
      · rw [if_pos h2]
        by_cases h3 : cfg.tie_breaker = str "priority"
        · rw [if_pos h3]
          by_cases h4 : priorityOpt cfg b < priorityOf cfg e'
          · rw [if_pos h4]; exact ih rest (some e') s' s htl hlt
          · rw [if_neg h4]; exact ih rest b bs s htl hbs
        · rw [if_neg h3]; exact ih rest b bs s htl hbs
      · rw [if_neg h2]; exact ih rest b bs s htl hbs

/-- Counterexample to C4 as stated: `_pick_best` starts from the sentinel
`best_score = -1.0`, so an emotion whose strictly highest score does not
exceed `-1.0` (reachable with negatively weighted keywords) is never
selected; the loop returns the fallback with the sentinel score instead of
the strictly-highest emotion. -/
theorem pickBest_counterexample :
    ((str "tristesse", (-2 : ℚ)) ∈ [(str "tristesse", (-2 : ℚ))] ∧
        ∀ p ∈ [(str "tristesse", (-2 : ℚ))], p ≠ (str "tristesse", -2) → p.2 < -2) ∧
      pickBest cfgJoie [(str "tristesse", -2)] = (cfgJoie.fallback, -1) ∧
      pickBest cfgJoie [(str "tristesse", -2)] ≠ (str "tristesse", -2) := by
  decide

/-- C4 as amended: in the selection step the emotion with the strictly
highest score wins provided that score exceeds the loop's initial sentinel
`-1.0` and its name is non-empty; and when exactly two emotions share an
equal positive best score under the `priority` tie-break policy, the one
with the strictly higher configured priority wins, with equal priorities
resolved in favour of the emotion that comes first in the score table
(configuration declaration order), deterministically. -/
theorem pickBest_selection :
    (∀ (cfg : RouterCfg) (scores : List (Str × ℚ)) (e : Str) (s : ℚ),
        (e, s) ∈ scores → (∀ p ∈ scores, p ≠ (e, s) → p.2 < s) → -1 < s → e ≠ [] →
        pickBest cfg scores = (e, s)) ∧
      (∀ (cfg : RouterCfg) (l1 l2 l3 : List (Str × ℚ)) (e1 e2 : Str) (s : ℚ),
        cfg.tie_breaker = str "priority" → 0 < s →
        (∀ p ∈ l1, p.2 < s) → (∀ p ∈ l2, p.2 < s) → (∀ p ∈ l3, p.2 < s) →
        e1 ≠ [] → e2 ≠ [] →
        pickBest cfg (l1 ++ ((e1, s) :: l2) ++ ((e2, s) :: l3)) =
          (if priorityOf cfg e1 < priorityOf cfg e2 then e2 else e1, s)) := by
  constructor
  · intro cfg scores e s hmem h hneg hene
    simp only [pickBest]
    rw [pickBestAux_max cfg scores none (-1) e s hmem h hneg]
    simp [hene]
  · intro cfg l1 l2 l3 e1 e2 s htb hs hl1 hl2 hl3 he1 he2
    obtain ⟨b', bs', heq, hbs'⟩ :=
      pickBestAux_append_bound cfg l1 (((e1, s) :: l2) ++ ((e2, s) :: l3)) none (-1) s hl1
        (lt_trans (by norm_num) hs)
    have hstep1 : pickBestAux cfg ((((e1, s) :: l2)) ++ ((e2, s) :: l3)) b' bs' =
        pickBestAux cfg (l2 ++ ((e2, s) :: l3)) (some e1) s := by
      rw [List.cons_append]
      simp only [pickBestAux]
      rw [if_pos hbs']
    have hstep2 : pickBestAux cfg (l2 ++ ((e2, s) :: l3)) (some e1) s =
        pickBestAux cfg ((e2, s) :: l3) (some e1) s :=
      pickBestAux_append_keep cfg l2 _ (some e1) s hl2
    have hpo : priorityOpt cfg (some e1) = priorityOf cfg e1 := rfl
    by_cases hpr : priorityOf cfg e1 < priorityOf cfg e2
    · have hstep3 : pickBestAux cfg ((e2, s) :: l3) (some e1) s = (some e2, s) := by
        simp only [pickBestAux]
        rw [if_neg (lt_irrefl s)]
        simp only [true_and]
        rw [if_pos hs, if_pos htb, hpo, if_pos hpr]
        exact pickBestAux_keep cfg l3 (some e2) s hl3
      simp only [pickBest]
      rw [List.append_assoc, heq, hstep1, hstep2, hstep3]
      simp [he2, hpr]
    · have hstep3 : pickBestAux cfg ((e2, s) :: l3) (some e1) s = (some e1, s) := by
        simp only [pickBestAux]
        rw [if_neg (lt_irrefl s)]
        simp only [true_and]
        rw [if_pos hs, if_pos htb, hpo, if_neg hpr]
        exact pickBestAux_keep cfg l3 (some e1) s hl3
      simp only [pickBest]
      rw [List.append_assoc, heq, hstep1, hstep2, hstep3]
      simp [he1, hpr]

/-- Witness for the amended C4: a strict winner, and a positive two-way tie
decided by the strictly higher priority (`joie` at 3 beats `colere` at 1). -/
theorem pickBest_selection_witness :
    pickBest cfgJoie [(str "joie", 2), (str "surprise", 1)] = (str "joie", 2) ∧
      pickBest cfgTie [(str "colere", 2), (str "joie", 2)] = (str "joie", 2) := by
  constructor
  · exact pickBest_selection.1 cfgJoie [(str "joie", 2), (str "surprise", 1)] (str "joie") 2
      (by decide) (by decide) (by decide) (by decide)
  · have h := pickBest_selection.2 cfgTie [] [] [] (str "colere") (str "joie") 2
      (by decide) (by decide) (by decide) (by decide) (by decide) (by decide) (by decide)
    rw [if_pos (show priorityOf cfgTie (str "colere") < priorityOf cfgTie (str "joie")
      from by decide)] at h
    simpa using h
